import Mathlib

/-!
# URL registry service (`cmd/main.go`)

A shallow embedding of the four GraphQL resolvers and of the HTTP handler of
`cmd/main.go`.  The package-level variable `UrlList` is threaded explicitly:
every resolver takes the current list and gives back the list it leaves behind.
Go's `interface{}` values are a small sum type, the argument map of
`graphql.ResolveParams` is an association list read with first-match lookup, and
a Go `error` is an `Option String` (`none` is `nil`).
-/

namespace UrlService

/-- The Go struct `Url` (main.go 13-16). -/
structure Url where
  Name : String
  SiteUrl : String
  deriving DecidableEq, Repr

/-- The Go struct `PostData` (main.go 20-22). -/
structure PostData where
  Query : String
  deriving DecidableEq, Repr

/-- The zero value `Url{}`: both fields are the empty string. -/
def Url.zero : Url := { Name := "", SiteUrl := "" }

/-- The initial value of the package variable `UrlList` (main.go 25-27). -/
def UrlList : List Url := [{ Name := "google", SiteUrl := "google.com" }]

/-- A Go `interface{}` as it can sit in `params.Args`: the nil interface, a
string, or a value of another dynamic type. -/
inductive Value where
  | null
  | str (s : String)
  | int (n : Int)
  | bool (b : Bool)
  | list (vs : List Value)
  deriving Repr

/-- The part of `graphql.ResolveParams` the resolvers read: the map `Args`. -/
structure ResolveParams where
  Args : List (String × Value)

/-- Go map indexing `m[k]`: the stored value, or the nil interface when the key
is absent. -/
def index (m : List (String × Value)) (k : String) : Value :=
  match m.lookup k with
  | some v => v
  | none => Value.null

/-- The comma-ok type assertion `v.(string)`: the string and `true`, or the
zero string and `false`. -/
def assertString : Value → String × Bool
  | Value.str s => (s, true)
  | _ => ("", false)

/-- What a resolver returns as its `interface{}` result: a `Url` or a `[]Url`. -/
inductive Resolved where
  | url (u : Url)
  | urls (l : List Url)
  deriving DecidableEq, Repr

/-- The outcome of one resolver call: the two Go results and the value of the
package variable `UrlList` after the call. -/
structure Outcome where
  value : Resolved
  err : Option String
  UrlList : List Url
  deriving DecidableEq, Repr

/-- The `range` loop of `GetResolver` (main.go 118-122): the first record whose
`Name` equals `idQuery` leaves the function; `none` is falling out of the loop. -/
def GetResolver.scan (idQuery : String) : List Url → Option Url
  | [] => none
  | url :: rest => if url.Name == idQuery then some url else GetResolver.scan idQuery rest

/-- The resolver `GetResolver` (main.go 112-126). -/
def GetResolver (params : ResolveParams) (UrlList : List Url) : Outcome :=
  let (idQuery, isOk) := assertString (index params.Args "name")
  if isOk then
    match GetResolver.scan idQuery UrlList with
    | some url => { value := Resolved.url url, err := none, UrlList := UrlList }
    | none => { value := Resolved.url Url.zero, err := none, UrlList := UrlList }
  else
    { value := Resolved.url Url.zero, err := none, UrlList := UrlList }

/-- The resolver `GetListResolver` (main.go 128-130). -/
def GetListResolver (_p : ResolveParams) (UrlList : List Url) : Outcome :=
  { value := Resolved.urls UrlList, err := none, UrlList := UrlList }

/-- The resolver `CreateNewUrlResolver` (main.go 132-143). -/
def CreateNewUrlResolver (params : ResolveParams) (UrlList : List Url) : Outcome :=
  let nameProp := (assertString (index params.Args "name")).1
  let siteurlProp := (assertString (index params.Args "siteurl")).1
  let newUrl : Url := { Name := nameProp, SiteUrl := siteurlProp }
  { value := Resolved.url newUrl, err := none, UrlList := UrlList ++ [newUrl] }

/-- The `for i := 0; i < len(UrlList); i++` loop of `DeleteUrlResolver`
(main.go 149-156), entered at index `i` with the current `deletedUrl`.  On a
match the record is kept, the list becomes `UrlList[:i]` followed by
`UrlList[i+1:]`, and the loop is left. -/
def DeleteUrlResolver.loop (nameUrl : String) (UrlList : List Url) (i : Nat)
    (deletedUrl : Url) : Url × List Url :=
  if h : i < UrlList.length then
    if (UrlList.get ⟨i, h⟩).Name == nameUrl then
      (UrlList.get ⟨i, h⟩, UrlList.take i ++ UrlList.drop (i + 1))
    else
      DeleteUrlResolver.loop nameUrl UrlList (i + 1) deletedUrl
  else
    (deletedUrl, UrlList)
termination_by UrlList.length - i

/-- The resolver `DeleteUrlResolver` (main.go 145-159). -/
def DeleteUrlResolver (params : ResolveParams) (UrlList : List Url) : Outcome :=
  let nameUrl := (assertString (index params.Args "name")).1
  let r := DeleteUrlResolver.loop nameUrl UrlList 0 Url.zero
  { value := Resolved.url r.1, err := none, UrlList := r.2 }

/-- The argument declaration of the mutation field `createUrl` (main.go 78-86):
`name` and `siteurl` both have type `graphql.NewNonNull(graphql.String)`, so an
argument map reaches the resolver through the schema only when it holds a
string, of any length, under each of the two keys. -/
def createUrlArgs (args : List (String × Value)) : Bool :=
  (assertString (index args "name")).2 && (assertString (index args "siteurl")).2

/-! ## The HTTP handler

`json.NewDecoder(..).Decode`, `graphql.Do` and `json.Marshal` belong to
libraries outside this repository; the handler takes them as parameters.
`decode` gives the decoded `PostData` or the text of `err.Error()`; `engine` is
`graphql.Do` over `UrlSchema`, which reads the request string, may run
resolvers against `UrlList`, and gives its result and the list it leaves. -/

/-- The `interface{}` handed to `WriteResponse`: a `map[string]string` or the
engine's result. -/
inductive Body (ρ : Type) where
  | strMap (m : List (String × String))
  | result (r : ρ)

/-- The state of an `http.ResponseWriter`: the status given to `WriteHeader`,
the header map, and the payloads given to `Write`. -/
structure ResponseWriter where
  status : Option Nat
  header : List (String × String)
  written : List String
  deriving DecidableEq, Repr

/-- The writer a handler receives: no status, no header, nothing written. -/
def ResponseWriter.fresh : ResponseWriter := { status := none, header := [], written := [] }

/-- The constant `http.StatusBadRequest`. -/
def StatusBadRequest : Nat := 400

/-- The constant `http.StatusOK`. -/
def StatusOK : Nat := 200

/-- The method `w.WriteHeader(status)`: the first status given is the one kept. -/
def ResponseWriter.WriteHeader (w : ResponseWriter) (status : Nat) : ResponseWriter :=
  match w.status with
  | none => { w with status := some status }
  | some _ => w

/-- The call `w.Header().Set(key, value)`: the entry for `key` is replaced. -/
def ResponseWriter.HeaderSet (w : ResponseWriter) (key value : String) : ResponseWriter :=
  { w with header := (key, value) :: w.header.filter fun kv => kv.1 != key }

/-- The method `w.Write(payload)`. -/
def ResponseWriter.Write (w : ResponseWriter) (payload : String) : ResponseWriter :=
  { w with written := w.written ++ [payload] }

/-- The function `WriteResponse` (main.go 182-187): `WriteHeader`, then
`Header().Set`, then `Write` of the marshalled body (the error of
`json.Marshal` is dropped by the source; `marshal` gives the payload). -/
def WriteResponse {ρ : Type} (marshal : Body ρ → String) (status : Nat) (body : Body ρ)
    (w : ResponseWriter) : ResponseWriter :=
  let w1 := w.WriteHeader status
  let w2 := w1.HeaderSet "Content-Type" "application/json"
  let payload := marshal body
  w2.Write payload

/-- The handler `ProcessGraphQL` (main.go 162-180), from the request body and
the current `UrlList` to the writer and the list after the request. -/
def ProcessGraphQL {ρ : Type} (decode : String → Except String PostData)
    (engine : String → List Url → ρ × List Url) (marshal : Body ρ → String)
    (requestBody : String) (w : ResponseWriter) (UrlList : List Url) :
    ResponseWriter × List Url :=
  match decode requestBody with
  | Except.error err =>
    (WriteResponse marshal StatusBadRequest (Body.strMap [("error", err)]) w, UrlList)
  | Except.ok query =>
    let r := engine query.Query UrlList
    (WriteResponse marshal StatusOK (Body.result r.1) w, r.2)

/-! ## Specification vocabulary -/

/-- The list `L` splits as `pre ++ u :: post` where `u` is the record of lowest
index whose `Name` is `n`. -/
def FirstNamed (L : List Url) (n : String) (pre : List Url) (u : Url) (post : List Url) : Prop :=
  L = pre ++ u :: post ∧ u.Name = n ∧ ∀ x ∈ pre, x.Name ≠ n

/-- No record of `L` has `Name = n`. -/
def NoneNamed (L : List Url) (n : String) : Prop := ∀ x ∈ L, x.Name ≠ n

/-- The name argument is absent or not a string. -/
def NotAString (v : Value) : Prop := ∀ s, v ≠ Value.str s

/-! ## Lemmas on the two loops -/

theorem exists_firstNamed (n : String) :
    ∀ L : List Url, (∃ u ∈ L, u.Name = n) → ∃ pre u post, FirstNamed L n pre u post := by
  intro L
  induction L with
  | nil => rintro ⟨u, hu, -⟩; cases hu
  | cons a l ih =>
    rintro ⟨u, hu, hn⟩
    by_cases ha : a.Name = n
    · exact ⟨[], a, l, rfl, ha, by simp⟩
    · have hl : ∃ u ∈ l, u.Name = n := by
        rcases List.mem_cons.mp hu with h | h
        · exact absurd (h ▸ hn) ha
        · exact ⟨u, h, hn⟩
      obtain ⟨pre, v, post, h1, h2, h3⟩ := ih hl
      refine ⟨a :: pre, v, post, by simp [h1], h2, ?_⟩
      intro x hx
      rcases List.mem_cons.mp hx with h | h
      · exact h ▸ ha
      · exact h3 x h

theorem FirstNamed.unique {L : List Url} {n : String} {pre pre2 post post2 : List Url}
    {u u2 : Url} (h : FirstNamed L n pre u post) (h2 : FirstNamed L n pre2 u2 post2) :
    pre = pre2 ∧ u = u2 ∧ post = post2 := by
  obtain ⟨e1, n1, p1⟩ := h
  obtain ⟨e2, n2, p2⟩ := h2
  subst e1
  induction pre generalizing pre2 with
  | nil =>
    cases pre2 with
    | nil => simpa using e2
    | cons b t =>
      simp only [List.nil_append, List.cons_append, List.cons.injEq] at e2
      exact absurd (e2.1 ▸ n1) (p2 b (by simp))
  | cons a t ih =>
    cases pre2 with
    | nil =>
      simp only [List.nil_append, List.cons_append, List.cons.injEq] at e2
      exact absurd (e2.1 ▸ n2) (p1 a (by simp))
    | cons b t2 =>
      simp only [List.cons_append, List.cons.injEq] at e2
      obtain ⟨hab, ht⟩ := e2
      have := ih (fun x hx => p1 x (by simp [hx])) (fun x hx => p2 x (by simp [hx])) ht
      simp [hab, this.1, this.2.1, this.2.2]

theorem scan_firstNamed {L : List Url} {n : String} {pre post : List Url} {u : Url}
    (h : FirstNamed L n pre u post) : GetResolver.scan n L = some u := by
  obtain ⟨e, hn, hp⟩ := h
  subst e
  induction pre with
  | nil => simp [GetResolver.scan, hn]
  | cons a t ih =>
    have ha : a.Name ≠ n := hp a (by simp)
    simp only [List.cons_append, GetResolver.scan, beq_iff_eq, ha, if_false]
    exact ih (fun x hx => hp x (by simp [hx]))

theorem scan_noneNamed {L : List Url} {n : String} (h : NoneNamed L n) :
    GetResolver.scan n L = none := by
  induction L with
  | nil => rfl
  | cons a t ih =>
    have ha : a.Name ≠ n := h a (by simp)
    simp only [GetResolver.scan, beq_iff_eq, ha, if_false]
    exact ih (fun x hx => h x (by simp [hx]))

theorem getElem_split (pre : List Url) (u : Url) (post : List Url)
    (h : pre.length < (pre ++ u :: post).length) : (pre ++ u :: post)[pre.length] = u := by
  induction pre with
  | nil => rfl
  | cons a t ih => simpa using ih (by simp)

theorem loop_hit (n : String) (d u : Url) (post : List Url) (hu : u.Name = n) :
    ∀ (mid pre : List Url), (∀ x ∈ mid, x.Name ≠ n) →
      DeleteUrlResolver.loop n (pre ++ mid ++ u :: post) pre.length d
        = (u, pre ++ mid ++ post) := by
  intro mid
  induction mid with
  | nil =>
    intro pre _
    rw [DeleteUrlResolver.loop]
    simp [hu, getElem_split]
  | cons m t ih =>
    intro pre hmid
    have hm : m.Name ≠ n := hmid m (by simp)
    rw [DeleteUrlResolver.loop]
    have key := ih (pre ++ [m]) (fun x hx => hmid x (by simp [hx]))
    simp only [List.length_append, List.length_singleton, List.append_assoc,
      List.singleton_append, List.cons_append, List.nil_append] at key
    simp [hm, key, getElem_split]

theorem loop_miss (n : String) (d : Url) :
    ∀ (rest pre : List Url), (∀ x ∈ rest, x.Name ≠ n) →
      DeleteUrlResolver.loop n (pre ++ rest) pre.length d = (d, pre ++ rest) := by
  intro rest
  induction rest with
  | nil =>
    intro pre _
    rw [DeleteUrlResolver.loop]
    simp
  | cons m t ih =>
    intro pre hrest
    have hm : m.Name ≠ n := hrest m (by simp)
    rw [DeleteUrlResolver.loop]
    have key := ih (pre ++ [m]) (fun x hx => hrest x (by simp [hx]))
    simp only [List.length_append, List.length_singleton, List.append_assoc,
      List.singleton_append] at key
    simp [hm, key, getElem_split]

theorem assertString_notAString {v : Value} (h : NotAString v) :
    assertString v = ("", false) := by
  cases v with
  | str s => exact absurd rfl (h s)
  | null => rfl
  | int n => rfl
  | bool b => rfl
  | list vs => rfl

theorem DeleteUrlResolver_of_first {L pre post : List Url} {u : Url} {n : String}
    (params : ResolveParams) (hn : (assertString (index params.Args "name")).1 = n)
    (h : FirstNamed L n pre u post) :
    DeleteUrlResolver params L = { value := Resolved.url u, err := none, UrlList := pre ++ post } := by
  obtain ⟨e, hu, hp⟩ := h
  subst e
  have key := loop_hit n Url.zero u post hu pre [] hp
  simp only [List.nil_append, List.length_nil] at key
  simp [DeleteUrlResolver, hn, key]

theorem DeleteUrlResolver_of_none {L : List Url} {n : String}
    (params : ResolveParams) (hn : (assertString (index params.Args "name")).1 = n)
    (h : NoneNamed L n) :
    DeleteUrlResolver params L = { value := Resolved.url Url.zero, err := none, UrlList := L } := by
  have key := loop_miss n Url.zero L [] h
  simp only [List.nil_append, List.length_nil] at key
  simp [DeleteUrlResolver, hn, key]

theorem GetResolver_of_string {L : List Url} {n : String} (params : ResolveParams)
    (hn : index params.Args "name" = Value.str n) :
    GetResolver params L =
      { value := Resolved.url ((GetResolver.scan n L).getD Url.zero), err := none, UrlList := L } := by
  simp only [GetResolver, hn, assertString]
  cases GetResolver.scan n L <;> rfl

theorem GetResolver_of_notAString {L : List Url} (params : ResolveParams)
    (h : NotAString (index params.Args "name")) :
    GetResolver params L = { value := Resolved.url Url.zero, err := none, UrlList := L } := by
  simp [GetResolver, assertString_notAString h]

theorem GetResolver_frame (L : List Url) (params : ResolveParams) :
    (GetResolver params L).err = none ∧ (GetResolver params L).UrlList = L := by
  cases hv : index params.Args "name" with
  | str a => rw [GetResolver_of_string params hv]; exact ⟨rfl, rfl⟩
  | null =>
    rw [GetResolver_of_notAString params (by intro s h; rw [hv] at h; cases h)]; exact ⟨rfl, rfl⟩
  | int n =>
    rw [GetResolver_of_notAString params (by intro s h; rw [hv] at h; cases h)]; exact ⟨rfl, rfl⟩
  | bool b =>
    rw [GetResolver_of_notAString params (by intro s h; rw [hv] at h; cases h)]; exact ⟨rfl, rfl⟩
  | list vs =>
    rw [GetResolver_of_notAString params (by intro s h; rw [hv] at h; cases h)]; exact ⟨rfl, rfl⟩

theorem noneNamed_or_first (L : List Url) (n : String) :
    NoneNamed L n ∨ ∃ pre u post, FirstNamed L n pre u post := by
  by_cases h : ∃ u ∈ L, u.Name = n
  · exact Or.inr (exists_firstNamed n L h)
  · refine Or.inl fun x hx hxn => h ⟨x, hx, hxn⟩

theorem FirstNamed.append {L pre post : List Url} {u : Url} {n : String}
    (h : FirstNamed L n pre u post) (M : List Url) : FirstNamed (L ++ M) n pre u (post ++ M) := by
  obtain ⟨e, hu, hp⟩ := h
  exact ⟨by simp [e], hu, hp⟩

/-! ## The claims -/

/-- C1: for every list `L` and strings `n`, `s`, `CreateNewUrlResolver` called
with `name = n` and `siteurl = s` returns `Url{n, s}` with a nil error and leaves
`UrlList` equal to `L` followed by that one record, whatever `L` holds; from the
seeded list, creating `("youtube", "youtube.com")` and then listing yields
google then youtube. -/
theorem CreateNewUrlResolver_appends (L : List Url) (n s : String) (params : ResolveParams)
    (hn : index params.Args "name" = Value.str n)
    (hs : index params.Args "siteurl" = Value.str s) :
    CreateNewUrlResolver params L
        = { value := Resolved.url ⟨n, s⟩, err := none, UrlList := L ++ [⟨n, s⟩] }
      ∧ GetListResolver ⟨[]⟩
          (CreateNewUrlResolver
            ⟨[("name", Value.str "youtube"), ("siteurl", Value.str "youtube.com")]⟩ UrlList).UrlList
        = { value := Resolved.urls [⟨"google", "google.com"⟩, ⟨"youtube", "youtube.com"⟩],
            err := none,
            UrlList := [⟨"google", "google.com"⟩, ⟨"youtube", "youtube.com"⟩] } := by
  refine ⟨?_, by decide⟩
  simp [CreateNewUrlResolver, hn, hs, assertString]

/-- Witness for C1 at a list that already holds a record of the same name. -/
theorem CreateNewUrlResolver_appends_witness :
    index [("siteurl", Value.str "google.org"), ("name", Value.str "google")] "name"
        = Value.str "google"
      ∧ index [("siteurl", Value.str "google.org"), ("name", Value.str "google")] "siteurl"
        = Value.str "google.org"
      ∧ CreateNewUrlResolver
          ⟨[("siteurl", Value.str "google.org"), ("name", Value.str "google")]⟩ UrlList
        = { value := Resolved.url ⟨"google", "google.org"⟩, err := none,
            UrlList := UrlList ++ [⟨"google", "google.org"⟩] } :=
  ⟨rfl, rfl,
    (CreateNewUrlResolver_appends UrlList "google" "google.org"
      ⟨[("siteurl", Value.str "google.org"), ("name", Value.str "google")]⟩ rfl rfl).1⟩

/-- C2: when some record of `L` has `Name = n`, `DeleteUrlResolver` called with
`name = n` returns the record of lowest index named `n` with a nil error and
leaves `L` without exactly that element: the records before it and all records
after it, same-named ones included, stay in order; on google, youtube, deleting
`"google"` and then listing yields only youtube. -/
theorem DeleteUrlResolver_removes_first (L : List Url) (n : String) (params : ResolveParams)
    (hn : index params.Args "name" = Value.str n) (hex : ∃ u ∈ L, u.Name = n) :
    (∃ pre u post, FirstNamed L n pre u post ∧
        DeleteUrlResolver params L
          = { value := Resolved.url u, err := none, UrlList := pre ++ post })
      ∧ GetListResolver ⟨[]⟩
          (DeleteUrlResolver ⟨[("name", Value.str "google")]⟩
            [⟨"google", "google.com"⟩, ⟨"youtube", "youtube.com"⟩]).UrlList
        = { value := Resolved.urls [⟨"youtube", "youtube.com"⟩], err := none,
            UrlList := [⟨"youtube", "youtube.com"⟩] } := by
  constructor
  · obtain ⟨pre, u, post, h⟩ := exists_firstNamed n L hex
    exact ⟨pre, u, post, h, DeleteUrlResolver_of_first params (by simp [hn, assertString]) h⟩
  · have h : FirstNamed [⟨"google", "google.com"⟩, ⟨"youtube", "youtube.com"⟩] "google"
        [] ⟨"google", "google.com"⟩ [⟨"youtube", "youtube.com"⟩] := ⟨rfl, rfl, by simp⟩
    rw [DeleteUrlResolver_of_first ⟨[("name", Value.str "google")]⟩ rfl h]
    rfl

/-- Witness for C2 at a list with two records named `"a"`: the first goes, the
later one stays. -/
theorem DeleteUrlResolver_removes_first_witness :
    index [("name", Value.str "a")] "name" = Value.str "a"
      ∧ (∃ u ∈ ([⟨"b", "1"⟩, ⟨"a", "2"⟩, ⟨"c", "3"⟩, ⟨"a", "4"⟩] : List Url), u.Name = "a")
      ∧ ∃ pre u post,
          FirstNamed [⟨"b", "1"⟩, ⟨"a", "2"⟩, ⟨"c", "3"⟩, ⟨"a", "4"⟩] "a" pre u post ∧
          DeleteUrlResolver ⟨[("name", Value.str "a")]⟩
              [⟨"b", "1"⟩, ⟨"a", "2"⟩, ⟨"c", "3"⟩, ⟨"a", "4"⟩]
            = { value := Resolved.url u, err := none, UrlList := pre ++ post } :=
  ⟨rfl, ⟨⟨"a", "2"⟩, by simp, rfl⟩,
    (DeleteUrlResolver_removes_first [⟨"b", "1"⟩, ⟨"a", "2"⟩, ⟨"c", "3"⟩, ⟨"a", "4"⟩] "a"
      ⟨[("name", Value.str "a")]⟩ rfl ⟨⟨"a", "2"⟩, by simp, rfl⟩).1⟩

/-- C3: when no record of `L` has `Name = n`, `DeleteUrlResolver` called with
`name = n` returns the empty record with a nil error and leaves `UrlList` equal
to `L`. -/
theorem DeleteUrlResolver_absent (L : List Url) (n : String) (params : ResolveParams)
    (hn : index params.Args "name" = Value.str n) (hno : NoneNamed L n) :
    DeleteUrlResolver params L
        = { value := Resolved.url ⟨"", ""⟩, err := none, UrlList := L }
      ∧ (DeleteUrlResolver params L).UrlList.length = L.length := by
  have h := DeleteUrlResolver_of_none params (by simp [hn, assertString]) hno
  rw [h]
  exact ⟨rfl, rfl⟩

/-- Witness for C3 on the seeded list. -/
theorem DeleteUrlResolver_absent_witness :
    index [("name", Value.str "youtube")] "name" = Value.str "youtube"
      ∧ NoneNamed UrlList "youtube"
      ∧ DeleteUrlResolver ⟨[("name", Value.str "youtube")]⟩ UrlList
        = { value := Resolved.url ⟨"", ""⟩, err := none, UrlList := UrlList } :=
  ⟨rfl, by simp [NoneNamed, UrlList],
    (DeleteUrlResolver_absent UrlList "youtube" ⟨[("name", Value.str "youtube")]⟩ rfl
      (by simp [NoneNamed, UrlList])).1⟩

/-- C4: `GetResolver` never returns an error; for a string argument `a` it
returns the record of lowest index named `a` when there is one and the empty
record when no record is named `a`; for an absent or non-string argument it
returns the empty record whatever the list holds. -/
theorem GetResolver_result (L : List Url) (params : ResolveParams) :
    (GetResolver params L).err = none
      ∧ (∀ a, index params.Args "name" = Value.str a →
          (∀ pre u post, FirstNamed L a pre u post →
              (GetResolver params L).value = Resolved.url u)
            ∧ (NoneNamed L a → (GetResolver params L).value = Resolved.url ⟨"", ""⟩))
      ∧ (NotAString (index params.Args "name") →
          (GetResolver params L).value = Resolved.url ⟨"", ""⟩) := by
  refine ⟨(GetResolver_frame L params).1, ?_, ?_⟩
  · intro a ha
    rw [GetResolver_of_string params ha]
    refine ⟨?_, ?_⟩
    · intro pre u post h
      simp [scan_firstNamed h]
    · intro h
      simp [scan_noneNamed h, Url.zero]
  · intro h
    rw [GetResolver_of_notAString params h]
    rfl

/-- Witness for C4: a hit behind another record, a miss, and a non-string
argument over the same list. -/
theorem GetResolver_result_witness :
    (GetResolver ⟨[("name", Value.str "a")]⟩ [⟨"b", "1"⟩, ⟨"a", "2"⟩, ⟨"a", "3"⟩]).value
        = Resolved.url ⟨"a", "2"⟩
      ∧ (GetResolver ⟨[("name", Value.str "z")]⟩ [⟨"b", "1"⟩, ⟨"a", "2"⟩, ⟨"a", "3"⟩]).value
        = Resolved.url ⟨"", ""⟩
      ∧ (GetResolver ⟨[("name", Value.int 7)]⟩ [⟨"b", "1"⟩, ⟨"a", "2"⟩, ⟨"a", "3"⟩]).value
        = Resolved.url ⟨"", ""⟩ :=
  ⟨((GetResolver_result [⟨"b", "1"⟩, ⟨"a", "2"⟩, ⟨"a", "3"⟩]
        ⟨[("name", Value.str "a")]⟩).2.1 "a" rfl).1 [⟨"b", "1"⟩] ⟨"a", "2"⟩ [⟨"a", "3"⟩]
      ⟨rfl, rfl, by simp⟩,
    ((GetResolver_result [⟨"b", "1"⟩, ⟨"a", "2"⟩, ⟨"a", "3"⟩]
        ⟨[("name", Value.str "z")]⟩).2.1 "z" rfl).2 (by simp [NoneNamed]),
    (GetResolver_result [⟨"b", "1"⟩, ⟨"a", "2"⟩, ⟨"a", "3"⟩]
        ⟨[("name", Value.int 7)]⟩).2.2 (fun _ h => Value.noConfusion h)⟩

/-- C5: `GetListResolver` returns exactly the stored list with a nil error,
whatever its parameters, and neither `GetListResolver` nor `GetResolver`
changes `UrlList`. -/
theorem GetListResolver_verbatim (L : List Url) (p q : ResolveParams) :
    (GetListResolver p L).value = Resolved.urls L
      ∧ (GetListResolver p L).err = none
      ∧ (GetListResolver p L).UrlList = L
      ∧ (GetResolver q L).UrlList = L := by
  exact ⟨rfl, rfl, rfl, (GetResolver_frame L q).2⟩

/-- C6: `ProcessGraphQL` answers with status 400 and the marshalled one-field
map `error ↦ message` exactly when decoding the request body fails; then the
answer and `UrlList` do not depend on the engine and `UrlList` is unchanged.
When decoding succeeds it answers with status 200 and the marshalled engine
result, whatever that result holds. -/
theorem ProcessGraphQL_status {ρ : Type} (decode : String → Except String PostData)
    (engine : String → List Url → ρ × List Url) (marshal : Body ρ → String)
    (requestBody : String) (L : List Url) :
    ((∃ msg, decode requestBody = Except.error msg
          ∧ (ProcessGraphQL decode engine marshal requestBody ResponseWriter.fresh L).1.status
              = some 400
          ∧ (ProcessGraphQL decode engine marshal requestBody ResponseWriter.fresh L).1.written
              = [marshal (Body.strMap [("error", msg)])])
        ↔ ∃ msg, decode requestBody = Except.error msg)
      ∧ ((ProcessGraphQL decode engine marshal requestBody ResponseWriter.fresh L).1.status
            = some 400
          ↔ ∃ msg, decode requestBody = Except.error msg)
      ∧ (∀ msg, decode requestBody = Except.error msg →
          (ProcessGraphQL decode engine marshal requestBody ResponseWriter.fresh L).2 = L
            ∧ ∀ engine2 : String → List Url → ρ × List Url,
                ProcessGraphQL decode engine2 marshal requestBody ResponseWriter.fresh L
                  = ProcessGraphQL decode engine marshal requestBody ResponseWriter.fresh L)
      ∧ (∀ query, decode requestBody = Except.ok query →
          (ProcessGraphQL decode engine marshal requestBody ResponseWriter.fresh L).1.status
              = some 200
            ∧ (ProcessGraphQL decode engine marshal requestBody ResponseWriter.fresh L).1.written
              = [marshal (Body.result (engine query.Query L).1)]
            ∧ (ProcessGraphQL decode engine marshal requestBody ResponseWriter.fresh L).2
              = (engine query.Query L).2) := by
  have hfail : ∀ (eng : String → List Url → ρ × List Url) (msg : String),
      decode requestBody = Except.error msg →
      ProcessGraphQL decode eng marshal requestBody ResponseWriter.fresh L
        = ({ status := some 400, header := [("Content-Type", "application/json")],
             written := [marshal (Body.strMap [("error", msg)])] }, L) := by
    intro eng msg h
    simp only [ProcessGraphQL, h]
    rfl
  have hok : ∀ (query : PostData), decode requestBody = Except.ok query →
      ProcessGraphQL decode engine marshal requestBody ResponseWriter.fresh L
        = ({ status := some 200, header := [("Content-Type", "application/json")],
             written := [marshal (Body.result (engine query.Query L).1)] },
           (engine query.Query L).2) := by
    intro query h
    simp only [ProcessGraphQL, h]
    rfl
  refine ⟨?_, ?_, ?_, ?_⟩
  · constructor
    · rintro ⟨msg, h, -⟩
      exact ⟨msg, h⟩
    · rintro ⟨msg, h⟩
      rw [hfail engine msg h]
      exact ⟨msg, h, rfl, rfl⟩
  · constructor
    · intro h
      cases hd : decode requestBody with
      | error e => exact ⟨e, rfl⟩
      | ok q =>
        rw [hok q hd] at h
        simp at h
    · rintro ⟨msg, h⟩
      rw [hfail engine msg h]
  · intro msg h
    refine ⟨by rw [hfail engine msg h], fun engine2 => ?_⟩
    rw [hfail engine msg h, hfail engine2 msg h]
  · intro query h
    rw [hok query h]
    exact ⟨rfl, rfl, rfl⟩

/-- Witness for C6 with a decoder that rejects one body and an engine that
always reports a query error and appends a record: the rejected body leaves the
list alone, the accepted one gets 200 with the engine's error-carrying result. -/
theorem ProcessGraphQL_status_witness :
    (if "oops" = "oops" then (Except.error "bad json" : Except String PostData)
        else Except.ok ⟨"oops"⟩) = Except.error "bad json"
      ∧ (ProcessGraphQL (fun b => if b = "oops" then Except.error "bad json" else Except.ok ⟨b⟩)
          (fun q l => (["syntax error"], l ++ [⟨q, q⟩]))
          (fun b => match b with
            | Body.strMap m => String.join (m.map fun kv => kv.1 ++ "=" ++ kv.2)
            | Body.result r => String.join r)
          "oops" ResponseWriter.fresh UrlList).2 = UrlList
      ∧ (ProcessGraphQL (fun b => if b = "oops" then Except.error "bad json" else Except.ok ⟨b⟩)
          (fun q l => (["syntax error"], l ++ [⟨q, q⟩]))
          (fun b => match b with
            | Body.strMap m => String.join (m.map fun kv => kv.1 ++ "=" ++ kv.2)
            | Body.result r => String.join r)
          "fine" ResponseWriter.fresh UrlList).1.status = some 200 :=
  ⟨rfl,
    ((ProcessGraphQL_status
        (fun b => if b = "oops" then Except.error "bad json" else Except.ok ⟨b⟩)
        (fun q l => (["syntax error"], l ++ [⟨q, q⟩]))
        (fun b => match b with
          | Body.strMap m => String.join (m.map fun kv => kv.1 ++ "=" ++ kv.2)
          | Body.result r => String.join r)
        "oops" UrlList).2.2.1 "bad json" rfl).1,
    ((ProcessGraphQL_status
        (fun b => if b = "oops" then Except.error "bad json" else Except.ok ⟨b⟩)
        (fun q l => (["syntax error"], l ++ [⟨q, q⟩]))
        (fun b => match b with
          | Body.strMap m => String.join (m.map fun kv => kv.1 ++ "=" ++ kv.2)
          | Body.result r => String.join r)
        "fine" UrlList).2.2.2 ⟨"fine"⟩ rfl).1⟩

/-- C7: in the initial state `GetListResolver` returns a list of exactly one
record, named `"google"` with address `"google.com"`. -/
theorem GetListResolver_initial (p : ResolveParams) :
    GetListResolver p UrlList
        = { value := Resolved.urls [⟨"google", "google.com"⟩], err := none,
            UrlList := [⟨"google", "google.com"⟩] }
      ∧ UrlList.length = 1 :=
  ⟨rfl, rfl⟩

/-- C8, counterexample: the argument map `name = ""`, `siteurl = ""` holds a
string under both keys, so the schema lets it through, neither string is
non-empty, and `CreateNewUrlResolver` still appends a record to the seeded
list, one whose `Name` and `SiteUrl` are both empty. -/
theorem CreateNewUrlResolver_stores_empty :
    createUrlArgs [("name", Value.str ""), ("siteurl", Value.str "")] = true
      ∧ (¬ ∃ n s, n ≠ "" ∧ s ≠ ""
            ∧ index [("name", Value.str ""), ("siteurl", Value.str "")] "name" = Value.str n
            ∧ index [("name", Value.str ""), ("siteurl", Value.str "")] "siteurl"
                = Value.str s)
      ∧ (CreateNewUrlResolver ⟨[("name", Value.str ""), ("siteurl", Value.str "")]⟩
            UrlList).UrlList
          = [⟨"google", "google.com"⟩, ⟨"", ""⟩]
      ∧ ∃ u ∈ (CreateNewUrlResolver ⟨[("name", Value.str ""), ("siteurl", Value.str "")]⟩
            UrlList).UrlList, u ∉ UrlList ∧ u.Name = "" ∧ u.SiteUrl = "" := by
  refine ⟨rfl, ?_, rfl, ⟨"", ""⟩, by decide, by decide, rfl, rfl⟩
  rintro ⟨n, s, hn, -, h, -⟩
  have h2 : index [("name", Value.str ""), ("siteurl", Value.str "")] "name" = Value.str "" := rfl
  rw [h2] at h
  exact hn (Value.str.inj h).symm

/-- C8, amended: for every list and every argument map `CreateNewUrlResolver`
appends exactly one record and returns it; its `Name` (`SiteUrl`) is the `name`
(`siteurl`) argument when that is a string and the empty string when it is
absent or not a string; so the appended record has a non-empty `Name` and a
non-empty `SiteUrl` exactly when both arguments are present as non-empty
strings. -/
theorem CreateNewUrlResolver_always_appends (L : List Url) (params : ResolveParams) :
    ∃ u, CreateNewUrlResolver params L
          = { value := Resolved.url u, err := none, UrlList := L ++ [u] }
      ∧ (∀ n, index params.Args "name" = Value.str n → u.Name = n)
      ∧ (NotAString (index params.Args "name") → u.Name = "")
      ∧ (∀ s, index params.Args "siteurl" = Value.str s → u.SiteUrl = s)
      ∧ (NotAString (index params.Args "siteurl") → u.SiteUrl = "")
      ∧ ((u.Name ≠ "" ∧ u.SiteUrl ≠ "") ↔
          ∃ n s, n ≠ "" ∧ s ≠ "" ∧ index params.Args "name" = Value.str n
            ∧ index params.Args "siteurl" = Value.str s) := by
  have hstr : ∀ (v : Value) (n : String), v = Value.str n → (assertString v).1 = n := by
    rintro v n rfl
    rfl
  have hnot : ∀ v : Value, NotAString v → (assertString v).1 = "" := by
    intro v h
    rw [assertString_notAString h]
  have hback : ∀ v : Value, (assertString v).1 ≠ "" → v = Value.str (assertString v).1 := by
    intro v hv
    cases v with
    | str t => rfl
    | null => exact absurd rfl hv
    | int k => exact absurd rfl hv
    | bool b => exact absurd rfl hv
    | list vs => exact absurd rfl hv
  refine ⟨⟨(assertString (index params.Args "name")).1,
      (assertString (index params.Args "siteurl")).1⟩, rfl,
    hstr _, hnot _, hstr _, hnot _, ?_⟩
  constructor
  · rintro ⟨h1, h2⟩
    exact ⟨_, _, h1, h2, hback _ h1, hback _ h2⟩
  · rintro ⟨n, s, hn, hs, h1, h2⟩
    have e1 := hstr _ n h1
    have e2 := hstr _ s h2
    simp only
    rw [e1, e2]
    exact ⟨hn, hs⟩

/-- Witness for the amended C8: a missing `siteurl` stores an empty address. -/
theorem CreateNewUrlResolver_always_appends_witness :
    ∃ u, CreateNewUrlResolver ⟨[("name", Value.str "youtube")]⟩ UrlList
          = { value := Resolved.url u, err := none, UrlList := UrlList ++ [u] }
      ∧ u.Name = "youtube" ∧ u.SiteUrl = "" := by
  obtain ⟨u, h, hn, -, -, hs, -⟩ :=
    CreateNewUrlResolver_always_appends UrlList ⟨[("name", Value.str "youtube")]⟩
  exact ⟨u, h, hn "youtube" rfl, hs (fun _ e => Value.noConfusion e)⟩

/-- C9: after `CreateNewUrlResolver(name = n, siteurl = s)` on `L`, a
`GetResolver(name = n)` call returns a record named `n`; it returns the new
record `Url{n, s}` exactly when `L` held no record named `n` or the first record
of `L` named `n` already had `SiteUrl = s`; whenever `L` held a record named `n`
it returns the first such record of `L`. -/
theorem GetResolver_after_create (L : List Url) (n s : String) (pc pg : ResolveParams)
    (hn : index pc.Args "name" = Value.str n) (hs : index pc.Args "siteurl" = Value.str s)
    (hg : index pg.Args "name" = Value.str n) :
    (∃ u, (GetResolver pg (CreateNewUrlResolver pc L).UrlList).value = Resolved.url u
        ∧ u.Name = n)
      ∧ ((GetResolver pg (CreateNewUrlResolver pc L).UrlList).value = Resolved.url ⟨n, s⟩
          ↔ (NoneNamed L n ∨ ∃ pre u post, FirstNamed L n pre u post ∧ u.SiteUrl = s))
      ∧ (∀ pre u post, FirstNamed L n pre u post →
          (GetResolver pg (CreateNewUrlResolver pc L).UrlList).value = Resolved.url u) := by
  have hc : (CreateNewUrlResolver pc L).UrlList = L ++ [⟨n, s⟩] := by
    simp [CreateNewUrlResolver, hn, hs, assertString]
  rw [hc, GetResolver_of_string pg hg]
  have hfirst : ∀ pre u post, FirstNamed L n pre u post →
      GetResolver.scan n (L ++ [⟨n, s⟩]) = some u := fun pre u post h =>
    scan_firstNamed (h.append [⟨n, s⟩])
  have hnone : NoneNamed L n → GetResolver.scan n (L ++ [⟨n, s⟩]) = some ⟨n, s⟩ := fun h =>
    @scan_firstNamed (L ++ [⟨n, s⟩]) n L [] ⟨n, s⟩ ⟨rfl, rfl, h⟩
  refine ⟨?_, ?_, ?_⟩
  · rcases noneNamed_or_first L n with h | ⟨pre, u, post, h⟩
    · exact ⟨⟨n, s⟩, by simp [hnone h], rfl⟩
    · exact ⟨u, by simp [hfirst pre u post h], h.2.1⟩
  · rcases noneNamed_or_first L n with h | ⟨pre, u, post, h⟩
    · simp [hnone h, h]
    · simp only [hfirst pre u post h, Option.getD_some, Resolved.url.injEq]
      constructor
      · intro hu
        exact Or.inr ⟨pre, u, post, h, by rw [hu]⟩
      · rintro (hno | ⟨pre2, u2, post2, h2, hs2⟩)
        · exact absurd h.2.1 (hno u (by rw [h.1]; simp))
        · obtain ⟨-, hu, -⟩ := h.unique h2
          have hname := h.2.1
          cases u
          subst hu
          simp only at hname hs2
          rw [hname, hs2]
  · intro pre u post h
    simp [hfirst pre u post h]

/-- Witness for C9 on the seeded list: a second `"google"` record is shadowed
by the seeded one. -/
theorem GetResolver_after_create_witness :
    index [("name", Value.str "google"), ("siteurl", Value.str "google.org")] "name"
        = Value.str "google"
      ∧ index [("name", Value.str "google"), ("siteurl", Value.str "google.org")] "siteurl"
        = Value.str "google.org"
      ∧ index [("name", Value.str "google")] "name" = Value.str "google"
      ∧ (GetResolver ⟨[("name", Value.str "google")]⟩
          (CreateNewUrlResolver
            ⟨[("name", Value.str "google"), ("siteurl", Value.str "google.org")]⟩
            UrlList).UrlList).value
        = Resolved.url ⟨"google", "google.com"⟩ :=
  ⟨rfl, rfl, rfl,
    (GetResolver_after_create UrlList "google" "google.org"
      ⟨[("name", Value.str "google"), ("siteurl", Value.str "google.org")]⟩
      ⟨[("name", Value.str "google")]⟩ rfl rfl rfl).2.2 [] ⟨"google", "google.com"⟩ []
      ⟨rfl, rfl, by simp⟩⟩

/-- C10: with a `name` argument that is absent or not a string,
`DeleteUrlResolver` does exactly what it does for `name = ""`: it removes and
returns the first record whose `Name` is empty when there is one, and otherwise
returns the empty record and leaves the list unchanged; `GetResolver` for such
an argument returns the empty record and the list as it was, whatever the list
holds. -/
theorem DeleteUrlResolver_nonstring_name (L : List Url) (params : ResolveParams)
    (h : NotAString (index params.Args "name")) :
    (∀ pe : ResolveParams, index pe.Args "name" = Value.str "" →
        DeleteUrlResolver params L = DeleteUrlResolver pe L)
      ∧ (∀ pre u post, FirstNamed L "" pre u post →
          DeleteUrlResolver params L
            = { value := Resolved.url u, err := none, UrlList := pre ++ post })
      ∧ (NoneNamed L "" →
          DeleteUrlResolver params L
            = { value := Resolved.url ⟨"", ""⟩, err := none, UrlList := L })
      ∧ GetResolver params L = { value := Resolved.url ⟨"", ""⟩, err := none, UrlList := L } := by
  have hname : (assertString (index params.Args "name")).1 = "" := by
    rw [assertString_notAString h]
  refine ⟨?_, ?_, ?_, GetResolver_of_notAString params h⟩
  · intro pe hpe
    have hpename : (assertString (index pe.Args "name")).1 = "" := by rw [hpe]; rfl
    simp only [DeleteUrlResolver, hname, hpename]
  · intro pre u post hf
    exact DeleteUrlResolver_of_first params hname hf
  · intro hno
    exact DeleteUrlResolver_of_none params hname hno

/-- Witness for C10 with no `name` argument over a list holding a record with
an empty `Name`: the delete removes and returns it, the get returns the empty
record. -/
theorem DeleteUrlResolver_nonstring_name_witness :
    NotAString (index [] "name")
      ∧ DeleteUrlResolver ⟨[]⟩ [⟨"google", "google.com"⟩, ⟨"", "blank.com"⟩]
        = { value := Resolved.url ⟨"", "blank.com"⟩, err := none,
            UrlList := [⟨"google", "google.com"⟩] }
      ∧ GetResolver ⟨[]⟩ [⟨"google", "google.com"⟩, ⟨"", "blank.com"⟩]
        = { value := Resolved.url ⟨"", ""⟩, err := none,
            UrlList := [⟨"google", "google.com"⟩, ⟨"", "blank.com"⟩] } :=
  ⟨fun _ h => Value.noConfusion h,
    (DeleteUrlResolver_nonstring_name [⟨"google", "google.com"⟩, ⟨"", "blank.com"⟩] ⟨[]⟩
      (fun _ h => Value.noConfusion h)).2.1 [⟨"google", "google.com"⟩] ⟨"", "blank.com"⟩ []
      ⟨rfl, rfl, by simp⟩,
    (DeleteUrlResolver_nonstring_name [⟨"google", "google.com"⟩, ⟨"", "blank.com"⟩] ⟨[]⟩
      (fun _ h => Value.noConfusion h)).2.2.2⟩

end UrlService
